import Mathlib

/-! Verification of the bitswap worker core (workers.go of go-bitswap as vendored in
go-ipfs).  Each Go worker loop is embedded as a small transition system: channel
operations and timer firings become events, goroutine-local variables become state
fields, and history variables record the values that crossed each channel.  The
theorems below settle the behavioural claims about the five workers:
provideCollector, provideWorker, taskWorker, rebroadcastWorker and
providerQueryManager. -/

namespace Bitswap

/-- Content identifiers (cid.Cid) are opaque hashable keys; we model them as
natural numbers. -/
abbrev Cid := Nat

/-- Peer identifiers (peer.ID), likewise opaque. -/
abbrev PeerID := Nat

/- ------------------------------------------------------------------
provideCollector (workers.go lines 139-170).

Loop-local variables: `toProvide []cid.Cid` (pending queue), `nextKey cid.Cid`
and `keysOut chan cid.Cid`.  `keysOut` is nil exactly when no key is armed for
output, so `nextKey`/`keysOut` together are modelled as `armed : Option Cid`.
`received` and `delivered` are history variables: the values read from
`bs.newBlocks` and the values sent on `bs.provideKeys`, in order.  The function
returns (and `defer close(bs.provideKeys)` closes the output) when `newBlocks`
is closed or the context is done; the loop locals are then discarded.
------------------------------------------------------------------ -/

inductive CollStatus where
  | running
  | returned
deriving DecidableEq, Repr

structure CollState where
  armed : Option Cid
  toProvide : List Cid
  status : CollStatus
  received : List Cid
  delivered : List Cid
deriving DecidableEq, Repr

def collInit : CollState := ⟨none, [], .running, [], []⟩

/-- The `case keysOut <- nextKey` branch of the select: deliver the armed key,
then arm the head of the pending queue, or disarm (`keysOut = nil`) if the
queue is empty.  When nothing is armed this select case is disabled (nil
channel), so the step is a no-op. -/
def sendHead (s : CollState) : CollState :=
  match s.armed with
  | none => s
  | some k =>
    match s.toProvide with
    | [] => { s with armed := none, delivered := s.delivered ++ [k] }
    | t :: ts => { s with armed := some t, toProvide := ts, delivered := s.delivered ++ [k] }

inductive CollEvent where
  | recvInput (c : Cid)
  | sendOutput
  | inputClosed
  | ctxDone
deriving DecidableEq, Repr

/-- One iteration of the provideCollector select, reading the Go cases
directly: a value received on `newBlocks` is armed if `keysOut` is nil and
appended to `toProvide` otherwise; a send on `keysOut` delivers the armed key;
`!ok` on `newBlocks` and `ctx.Done()` both return, dropping the loop locals.
After the function returned every event is a no-op. -/
def collStep (s : CollState) (e : CollEvent) : CollState :=
  match s.status with
  | .returned => s
  | .running =>
    match e with
    | .recvInput c =>
        match s.armed with
        | none => { s with armed := some c, received := s.received ++ [c] }
        | some _ => { s with toProvide := s.toProvide ++ [c], received := s.received ++ [c] }
    | .sendOutput => sendHead s
    | .inputClosed => { s with status := .returned, armed := none, toProvide := [] }
    | .ctxDone => { s with status := .returned, armed := none, toProvide := [] }

def collRun (evs : List CollEvent) : CollState := evs.foldl collStep collInit

/-- Events available while the input is open and the context live: producer
arrivals and consumer take-offs only. -/
def isProdCons : CollEvent → Bool
  | .recvInput _ => true
  | .sendOutput => true
  | .inputClosed => false
  | .ctxDone => false

/-- The sequence of ContentIDs written to the collector input by a trace. -/
def inputsOf (evs : List CollEvent) : List Cid :=
  evs.filterMap (fun e => match e with | .recvInput c => some c | _ => none)

/-- The ContentIDs an event writes to the collector input ([c] for an input
arrival, [] otherwise). -/
def evInputs : CollEvent → List Cid
  | .recvInput c => [c]
  | _ => []

/-- The number of output take-offs still needed to empty the collector: one
for the armed key plus one per pending key. -/
def collBacklog (s : CollState) : Nat :=
  (if s.armed.isSome then 1 else 0) + s.toProvide.length

/-- A consumer taking up to `n` keys from the collector output. -/
def drainFuel : Nat → CollState → CollState
  | 0, s => s
  | n + 1, s =>
    match s.armed with
    | none => s
    | some _ => drainFuel n (sendHead s)

/-- A consumer that keeps taking from the output until nothing is armed. -/
def drain (s : CollState) : CollState := drainFuel (collBacklog s) s

/- ------------------------------------------------------------------
providerQueryManager (workers.go lines 210-256).

Loop state: the mutex-guarded set `kset` (the ActiveQuerySet) of ContentIDs
with a search task in flight.  `searches` is a history variable logging the
calls to `bs.network.FindProvidersAsync`, in order.  A dequeued request whose
context is already done is dropped (`select` with an immediate `Done` case and
`default`); a request whose cid is in `kset` is dropped under the lock; any
other request adds its cid to `kset` and launches a search task.  The task
waits for all of its connection attempts (`wg.Wait()`) and then removes the
cid from `kset` under the lock: that whole completion is the `completeSearch`
step.
------------------------------------------------------------------ -/

structure BlockRequest where
  cid : Cid
  ctxDone : Bool
deriving DecidableEq, Repr

structure PqmState where
  kset : List Cid
  searches : List Cid
deriving DecidableEq, Repr

def pqmInit : PqmState := ⟨[], []⟩

/-- Dequeue one request from `bs.findKeys` and handle it as the Go loop does:
drop if the request context is done, drop if the cid is already active,
otherwise mark the cid active and issue the provider search. -/
def processRequest (s : PqmState) (e : BlockRequest) : PqmState :=
  if e.ctxDone then s
  else if e.cid ∈ s.kset then s
  else ⟨e.cid :: s.kset, s.searches ++ [e.cid]⟩

/-- All connection attempts of the search task for `c` have finished
(`wg.Wait()` returned) and the task removes `c` from the active set. -/
def completeSearch (s : PqmState) (c : Cid) : PqmState :=
  ⟨s.kset.erase c, s.searches⟩

/- ------------------------------------------------------------------
provideWorker (workers.go lines 93-137).

The spawner acquires a slot of the buffered channel `limit` (capacity
`provideWorkerMax`, here the parameter `W`) before launching
`limitedGoProvide` for a key, and the launched task releases its slot in a
`defer` — unconditionally, whether or not `bs.network.Provide` failed or timed
out.  State: the list of keys whose announce task is currently executing.
------------------------------------------------------------------ -/

structure PwState where
  running : List Cid
deriving DecidableEq, Repr

inductive PwEvent where
  | spawn (k : Cid)
  | finish (i : Nat) (ok : Bool)
deriving DecidableEq, Repr

/-- One scheduler step of the announce pipeline: `spawn k` models
`limit <- struct: go limitedGoProvide(k, wid)` and is enabled only when a
semaphore slot is free; `finish i ok` models the announce task at index `i`
returning with Provide outcome `ok` and releasing its slot in its defer. -/
def pwStep (W : Nat) (s : PwState) (e : PwEvent) : PwState :=
  match e with
  | .spawn k => if s.running.length < W then ⟨s.running ++ [k]⟩ else s
  | .finish i _ok => ⟨s.running.eraseIdx i⟩

def pwRun (W : Nat) (evs : List PwEvent) : PwState := evs.foldl (pwStep W) ⟨[]⟩

/- ------------------------------------------------------------------
taskWorker (workers.go lines 50-91).

Per-envelope data and processing.  `bsmsg.New(false)` + `AddBlock` build the
outgoing message from the envelope blocks; `bs.engine.MessageSent` is called
with it, then `bs.wm.SendBlocks(ctx, envelope)` transmits, then under
`bs.counterLk` the loop adds one to `blocksSent` and the raw size to
`dataSent` for each block.  `sendOk` is the outcome of the transmission; the
worker never looks at it.
------------------------------------------------------------------ -/

structure Block where
  cid : Cid
  rawData : List Nat
deriving DecidableEq, Repr

structure BsMessage where
  blocks : List Block
deriving DecidableEq, Repr

structure Envelope where
  peer : PeerID
  message : BsMessage
deriving DecidableEq, Repr

structure Counters where
  blocksSent : Nat
  dataSent : Nat
deriving DecidableEq, Repr

def msgNew : BsMessage := ⟨[]⟩

def addBlock (m : BsMessage) (b : Block) : BsMessage := ⟨m.blocks ++ [b]⟩

/-- The counter loop run under `bs.counterLk`. -/
def countBlocks (c : Counters) (bs : List Block) : Counters :=
  bs.foldl (fun c b => ⟨c.blocksSent + 1, c.dataSent + b.rawData.length⟩) c

inductive TwEvent where
  | messageSent (p : PeerID) (m : BsMessage)
  | sendBlocks (p : PeerID) (m : BsMessage)
  | counterAdd (blocks : Nat) (bytes : Nat)
deriving DecidableEq, Repr

def isMessageSent : TwEvent → Bool
  | .messageSent _ _ => true
  | _ => false

/-- Handling of one obtained envelope by a task worker: the emitted
collaborator calls, in program order, and the updated counters.  The
`counterAdd` event records the net locked update. -/
def processEnvelope (env : Envelope) (c : Counters) (sendOk : Bool) :
    List TwEvent × Counters :=
  let outgoing := env.message.blocks.foldl addBlock msgNew
  ([TwEvent.messageSent env.peer outgoing,
    TwEvent.sendBlocks env.peer env.message,
    TwEvent.counterAdd env.message.blocks.length
      (env.message.blocks.map (fun b => b.rawData.length)).sum],
   countBlocks c env.message.blocks)

/-- Control locations of the taskWorker loop: blocked on the outer select
(`bs.engine.Outbox()` vs `ctx.Done()`), blocked on the inner select
(`nextEnvelope` vs `ctx.Done()`), or returned. -/
inductive TwLoc where
  | outerWait
  | innerWait
  | done
deriving DecidableEq, Repr

structure TwState where
  loc : TwLoc
  counters : Counters
  trace : List TwEvent
deriving DecidableEq, Repr

inductive TwLabel where
  | recvOutbox
  | recvEnvelope (env : Envelope) (sendOk : Bool)
  | innerClosed
  | ctxDone
deriving DecidableEq, Repr

/-- One select resolution of the taskWorker loop.  `recvOutbox` receives a
`nextEnvelope` channel from the outbox; `recvEnvelope` receives an envelope on
it (`ok = true`), processes it and loops; `innerClosed` is `ok = false`, which
`continue`s back to the outer wait; `ctxDone` returns from either wait.
`none` means the label resolves no select case at that location. -/
def twStep (s : TwState) (l : TwLabel) : Option TwState :=
  match s.loc, l with
  | .outerWait, .recvOutbox => some { s with loc := .innerWait }
  | .outerWait, .ctxDone => some { s with loc := .done }
  | .innerWait, .recvEnvelope env ok =>
      some { loc := .outerWait,
             counters := (processEnvelope env s.counters ok).2,
             trace := s.trace ++ (processEnvelope env s.counters ok).1 }
  | .innerWait, .innerClosed => some { s with loc := .outerWait }
  | .innerWait, .ctxDone => some { s with loc := .done }
  | _, _ => none

/- ------------------------------------------------------------------
rebroadcastWorker (workers.go lines 172-208).

Two tickers feed one select: `tick` (10s metrics) reads the want count and
never submits anything; `broadcastSignal` picks `i := rand.Intn(len(entries))`
from the current wants and submits entry i on `bs.findKeys` — note that this
submission is a bare channel send, not wrapped in a select with a `Done` case.
`parent.Done()` returns from the select.
------------------------------------------------------------------ -/

/-- Go's `rand.Intn(n)` yields a value in `[0, n)`; we expose the generator
output as a seed `r` reduced mod `n`, so every residue is a possible draw. -/
def randIntn (r n : Nat) : Nat := r % n

/-- The body of the `broadcastSignal.C` case: the list of ContentIDs submitted
as discovery requests on this firing, given current wants and the random seed.
Empty want-list: `continue`, nothing submitted; otherwise exactly the one
entry at the drawn index. -/
def broadcastFire (wants : List Cid) (r : Nat) : List Cid :=
  if hw : wants = [] then []
  else [wants.get ⟨randIntn r wants.length, Nat.mod_lt r (List.length_pos.mpr hw)⟩]

/-- The body of the `tick.C` case: reads the want count (first component, used
only for logging) and submits nothing (second component). -/
def metricsTick (wants : List Cid) : Nat × List Cid := (wants.length, [])

/-- Control locations of the rebroadcast loop: blocked in the select, blocked
in the bare send `bs.findKeys <- ...`, or returned. -/
inductive RbLoc where
  | select
  | sending
  | returned
deriving DecidableEq, Repr

inductive RbEvent where
  | tickFire
  | bcastFire (wants : List Cid) (r : Nat)
  | parentDone
  | sendComplete
deriving DecidableEq, Repr

/-- One step of the rebroadcast loop under environment conditions `canceled`
(the parent context is done) and `recvReady` (providerQueryManager is ready to
receive on `bs.findKeys`).  `none` means the event is not enabled at the
location: in particular, at `sending` the bare channel send offers no
`Done` case, so `parentDone` is never enabled there. -/
def rbStep (canceled recvReady : Bool) : RbLoc → RbEvent → Option RbLoc
  | .select, .tickFire => some .select
  | .select, .bcastFire wants r =>
      if (broadcastFire wants r).isEmpty then some .select else some .sending
  | .select, .parentDone => if canceled then some .returned else none
  | .sending, .sendComplete => if recvReady then some .select else none
  | _, _ => none

/- ------------------------------------------------------------------
Theorems.
------------------------------------------------------------------ -/

/-- C9: a DiscoveryRequest whose cancellation context is already done when the
manager dequeues it is discarded silently: the manager state is unchanged — in
particular the ContentID is not added to the ActiveQuerySet and no
FindProvidersAsync search is launched. -/
theorem providerQueryManager_cancelled_drop (s : PqmState) (C : Cid) :
    processRequest s ⟨C, true⟩ = s ∧
    (processRequest s ⟨C, true⟩).kset = s.kset ∧
    (processRequest s ⟨C, true⟩).searches = s.searches := by
  refine ⟨rfl, rfl, rfl⟩

/-- C1: deduplication of provider searches.  From a state where no search for
C is in flight, a request for C launches one FindProvidersAsync call and puts
C into the ActiveQuerySet; while C is in the set, any further request for C
(canceled or not) is dropped without changing the state, so two requests
submitted while the search is in flight cause exactly one search; when all
connection attempts for C finish, C is removed from the set, and a later
request for C launches a new search. -/
theorem providerQueryManager_dedup (s : PqmState) (C : Cid) (d : Bool)
    (h : C ∉ s.kset) :
    C ∈ (processRequest s ⟨C, false⟩).kset ∧
    (processRequest s ⟨C, false⟩).searches = s.searches ++ [C] ∧
    (∀ t : PqmState, C ∈ t.kset → processRequest t ⟨C, d⟩ = t) ∧
    processRequest (processRequest s ⟨C, false⟩) ⟨C, false⟩
      = processRequest s ⟨C, false⟩ ∧
    (processRequest (processRequest s ⟨C, false⟩) ⟨C, false⟩).searches.count C
      = s.searches.count C + 1 ∧
    C ∉ (completeSearch (processRequest s ⟨C, false⟩) C).kset ∧
    (processRequest (completeSearch (processRequest s ⟨C, false⟩) C) ⟨C, false⟩).searches
      = s.searches ++ [C] ++ [C] := by
  have h1 : processRequest s ⟨C, false⟩ = ⟨C :: s.kset, s.searches ++ [C]⟩ := by
    simp [processRequest, h]
  have hmem : C ∈ (processRequest s ⟨C, false⟩).kset := by
    rw [h1]; exact List.mem_cons_self _ _
  have hdrop : ∀ (t : PqmState) (b : Bool), C ∈ t.kset → processRequest t ⟨C, b⟩ = t := by
    intro t b ht
    cases b <;> simp [processRequest, ht]
  have h2 : processRequest (processRequest s ⟨C, false⟩) ⟨C, false⟩
      = processRequest s ⟨C, false⟩ := hdrop _ _ hmem
  have hcomp : completeSearch (processRequest s ⟨C, false⟩) C = ⟨s.kset, s.searches ++ [C]⟩ := by
    rw [h1]
    simp [completeSearch, List.erase_cons_head]
  refine ⟨hmem, by rw [h1], fun t => hdrop t d, h2, ?_, ?_, ?_⟩
  · rw [h2, h1]
    simp
  · rw [hcomp]
    exact h
  · rw [hcomp]
    simp [processRequest, h]

/-- Removing one element never lengthens a list. -/
lemma length_eraseIdx_le (l : List Cid) (i : Nat) : (l.eraseIdx i).length ≤ l.length := by
  induction l generalizing i with
  | nil => simp [List.eraseIdx]
  | cons a t ih =>
    cases i with
    | zero => simp [List.eraseIdx]
    | succ j =>
      simpa [List.eraseIdx] using ih j

/-- A single provide-pipeline step keeps the announce count within the
semaphore capacity. -/
lemma pwStep_length_le (W : Nat) (s : PwState) (e : PwEvent)
    (h : s.running.length ≤ W) : (pwStep W s e).running.length ≤ W := by
  cases e with
  | spawn k =>
    by_cases hlt : s.running.length < W
    · simp only [pwStep, if_pos hlt, List.length_append, List.length_cons, List.length_nil]
      omega
    · simpa [pwStep, if_neg hlt] using h
  | finish i ok =>
    exact le_trans (length_eraseIdx_le _ _) h

/-- C4: bounded announce parallelism.  For every configured semaphore
capacity W, every event sequence of spawns and completions leaves at most W
announce tasks running (a slot is acquired before each launch), and a task
completion releases its slot independently of whether the Provide call
succeeded or failed. -/
theorem provideWorker_bounded (W : Nat) (evs : List PwEvent) :
    (pwRun W evs).running.length ≤ W ∧
    ∀ (s : PwState) (i : Nat), pwStep W s (.finish i true) = pwStep W s (.finish i false) := by
  constructor
  · have hgen : ∀ (l : List PwEvent) (s : PwState), s.running.length ≤ W →
        (l.foldl (pwStep W) s).running.length ≤ W := by
      intro l
      induction l with
      | nil => intro s hs; simpa using hs
      | cons e t ih => intro s hs; exact ih _ (pwStep_length_le W s e hs)
    exact hgen evs ⟨[]⟩ (by simp)
  · intro s i
    rfl

/-- C8: taskWorker cancellation.  From the outer wait (on the outbox channel)
and from the inner wait (on the per-envelope channel) the context-done label
makes the worker return; a closed (withdrawn) inner channel does not terminate
the worker but sends it back to the outer wait. -/
theorem taskWorker_cancel_exits (c : Counters) (tr : List TwEvent) :
    twStep ⟨.outerWait, c, tr⟩ .ctxDone = some ⟨.done, c, tr⟩ ∧
    twStep ⟨.innerWait, c, tr⟩ .ctxDone = some ⟨.done, c, tr⟩ ∧
    twStep ⟨.innerWait, c, tr⟩ .innerClosed = some ⟨.outerWait, c, tr⟩ :=
  ⟨rfl, rfl, rfl⟩

/-- Building the outgoing message with AddBlock copies the envelope blocks in
order. -/
lemma foldl_addBlock (bs : List Block) (m : BsMessage) :
    bs.foldl addBlock m = ⟨m.blocks ++ bs⟩ := by
  induction bs generalizing m with
  | nil => simp
  | cons b t ih => simp [addBlock, ih]

/-- The locked counter loop adds the block count and the total raw size. -/
lemma countBlocks_spec (bs : List Block) (c : Counters) :
    countBlocks c bs = ⟨c.blocksSent + bs.length,
      c.dataSent + (bs.map (fun b => b.rawData.length)).sum⟩ := by
  induction bs generalizing c with
  | nil => simp [countBlocks]
  | cons b t ih =>
    show countBlocks ⟨c.blocksSent + 1, c.dataSent + b.rawData.length⟩ t = _
    rw [ih]
    simp only [Counters.mk.injEq, List.length_cons, List.map_cons, List.sum_cons]
    omega

/-- C5: per-envelope step order in the task worker.  Handling one envelope
emits, in this order, exactly one MessageSent carrying exactly the envelope's
blocks, then the SendBlocks transmission of those blocks to the envelope's
peer, then the locked counter update adding the block count and total raw
byte size; the counters change accordingly. -/
theorem taskWorker_envelope_order (env : Envelope) (c : Counters) (sendOk : Bool) :
    (processEnvelope env c sendOk).1 =
      [TwEvent.messageSent env.peer env.message,
       TwEvent.sendBlocks env.peer env.message,
       TwEvent.counterAdd env.message.blocks.length
         (env.message.blocks.map (fun b => b.rawData.length)).sum] ∧
    ((processEnvelope env c sendOk).1.countP isMessageSent) = 1 ∧
    (processEnvelope env c sendOk).2.blocksSent
      = c.blocksSent + env.message.blocks.length ∧
    (processEnvelope env c sendOk).2.dataSent
      = c.dataSent + (env.message.blocks.map (fun b => b.rawData.length)).sum := by
  have hmsg : env.message.blocks.foldl addBlock msgNew = env.message := by
    rw [foldl_addBlock]
    simp [msgNew]
  refine ⟨?_, ?_, ?_, ?_⟩
  · simp [processEnvelope, hmsg]
  · simp [processEnvelope, List.countP_cons, isMessageSent]
  · simp [processEnvelope, countBlocks_spec]
  · simp [processEnvelope, countBlocks_spec]

/-- C10: the sent counters advance regardless of the transmission outcome.
Envelope handling is one and the same function of the envelope and the
previous counters whether the transmission succeeds or fails — the worker
never inspects the result — and the blocks-sent and bytes-sent counters grow
by the envelope's block count and raw byte size also on failure. -/
theorem taskWorker_counters_unconditional (env : Envelope) (c : Counters) :
    processEnvelope env c false = processEnvelope env c true ∧
    (processEnvelope env c false).2.blocksSent
      = c.blocksSent + env.message.blocks.length ∧
    (processEnvelope env c false).2.dataSent
      = c.dataSent + (env.message.blocks.map (fun b => b.rawData.length)).sum := by
  refine ⟨rfl, ?_, ?_⟩ <;> simp [processEnvelope, countBlocks_spec]

/-- C7: rebroadcast selection.  A rebroadcast-timer firing on an empty
want-list submits nothing; on a want-list of length K > 0 it submits exactly
one request, namely the entry at index r mod K for the random draw r, every
index below K is a possible draw (nonzero probability per entry), seeds drawn
uniformly from 0..K-1 select each index exactly once (uniform selection), and
the metrics timer only reads the want-list size and submits nothing. -/
theorem rebroadcastWorker_select_one (wants : List Cid) (r : Nat) (hw : wants ≠ []) :
    (∀ q : Nat, broadcastFire [] q = []) ∧
    broadcastFire wants r
      = [wants.get ⟨r % wants.length, Nat.mod_lt r (List.length_pos.mpr hw)⟩] ∧
    (broadcastFire wants r).length = 1 ∧
    (∀ (i : Nat) (hi : i < wants.length), ∃ q : Nat,
      broadcastFire wants q = [wants.get ⟨i, hi⟩]) ∧
    (∀ i : Nat, i < wants.length →
      ((Finset.range wants.length).filter (fun q => q % wants.length = i)).card = 1) ∧
    (∀ ws : List Cid, metricsTick ws = (ws.length, [])) := by
  have hfire : ∀ q : Nat, broadcastFire wants q
      = [wants.get ⟨q % wants.length, Nat.mod_lt q (List.length_pos.mpr hw)⟩] := by
    intro q
    simp [broadcastFire, hw, randIntn]
  refine ⟨?_, hfire r, ?_, ?_, ?_, ?_⟩
  · intro q
    simp [broadcastFire]
  · rw [hfire r]
    rfl
  · intro i hi
    refine ⟨i, ?_⟩
    rw [hfire i]
    simp [Nat.mod_eq_of_lt hi]
  · intro i hi
    have hset : (Finset.range wants.length).filter (fun q => q % wants.length = i) = {i} := by
      ext q
      simp only [Finset.mem_filter, Finset.mem_range, Finset.mem_singleton]
      constructor
      · rintro ⟨hq, he⟩
        rw [Nat.mod_eq_of_lt hq] at he
        exact he
      · rintro rfl
        exact ⟨hi, Nat.mod_eq_of_lt hi⟩
    rw [hset]
    rfl
  · intro ws
    rfl

/-- C6 counterexample: the submission of the selected want on the request
channel is a bare channel send with no context case.  In the canceled state,
blocked in that send with no receiver ready, the worker observes nothing: no
event — and in particular not the parent-context cancellation — is enabled,
so the loop does not return; this refutes the claim that every blocking wait
inside the loop observes cancellation within one polling cycle. -/
theorem rebroadcastWorker_send_ignores_cancel_cex :
    rbStep true false .sending .parentDone = none ∧
    rbStep true false .sending .sendComplete = none ∧
    rbStep true false .sending .tickFire = none ∧
    rbStep true false .sending (.bcastFire [1] 0) = none :=
  ⟨rfl, rfl, rfl, rfl⟩

/-- C6 amended: canceling the parent context makes the loop return from its
select (both timers are then stopped and absorbed: no event is enabled after
the return), and the bare send of the selected want completes only when the
manager is ready to receive, after which the loop is back at the select; while
blocked in the bare send the worker does not observe cancellation. -/
theorem rebroadcastWorker_shutdown (recvReady : Bool) :
    rbStep true recvReady .select .parentDone = some .returned ∧
    (∀ e : RbEvent, rbStep true recvReady .returned e = none) ∧
    rbStep true true .sending .sendComplete = some .select := by
  refine ⟨rfl, ?_, rfl⟩
  intro e
  cases e <;> rfl

/-- After the collector returned, every further event is a no-op. -/
lemma collStep_returned (s : CollState) (h : s.status = .returned) (e : CollEvent) :
    collStep s e = s := by
  rcases s with ⟨a, tp, st, rc, dl⟩
  cases st with
  | running => simp at h
  | returned => rfl

/-- After the collector returned, whole traces are no-ops. -/
lemma foldl_returned (s : CollState) (h : s.status = .returned) (evs : List CollEvent) :
    evs.foldl collStep s = s := by
  induction evs with
  | nil => rfl
  | cons e t ih =>
    rw [List.foldl_cons, collStep_returned s h e]
    exact ih

lemma inputsOf_cons (e : CollEvent) (t : List CollEvent) :
    inputsOf (e :: t) = evInputs e ++ inputsOf t := by
  cases e <;> rfl

/-- One running-mode collector step under a producer or consumer event keeps
the collector running, keeps the queue empty whenever nothing is armed, moves
the received key to the end of the delivered-armed-pending concatenation, and
appends it to the received history. -/
lemma collStep_inv (s : CollState) (e : CollEvent) (he : isProdCons e = true)
    (hs : s.status = .running) (hq : s.armed = none → s.toProvide = []) :
    (collStep s e).status = .running ∧
    ((collStep s e).armed = none → (collStep s e).toProvide = []) ∧
    (collStep s e).delivered ++ (collStep s e).armed.toList ++ (collStep s e).toProvide
      = s.delivered ++ s.armed.toList ++ s.toProvide ++ evInputs e ∧
    (collStep s e).received = s.received ++ evInputs e := by
  rcases s with ⟨a, tp, st, rc, dl⟩
  dsimp only at hs hq ⊢
  subst hs
  cases e with
  | recvInput c =>
    cases a with
    | none =>
      have htp := hq rfl
      subst htp
      simp [collStep, evInputs]
    | some k => simp [collStep, evInputs]
  | sendOutput =>
    cases a with
    | none => simp [collStep, sendHead, evInputs, hq rfl]
    | some k =>
      cases tp with
      | nil => simp [collStep, sendHead, evInputs]
      | cons t0 ts => simp [collStep, sendHead, evInputs]
  | inputClosed => simp [isProdCons] at he
  | ctxDone => simp [isProdCons] at he

/-- Trace invariant of the collector: while only producer and consumer events
occur, the collector keeps running, the queue is empty whenever nothing is
armed, the delivered-armed-pending concatenation extends by exactly the
received inputs in order, and the received history extends likewise. -/
lemma coll_foldl_inv (evs : List CollEvent) (s : CollState)
    (h : ∀ e ∈ evs, isProdCons e = true) (hs : s.status = .running)
    (hq : s.armed = none → s.toProvide = []) :
    (evs.foldl collStep s).status = .running ∧
    ((evs.foldl collStep s).armed = none → (evs.foldl collStep s).toProvide = []) ∧
    (evs.foldl collStep s).delivered ++ (evs.foldl collStep s).armed.toList
        ++ (evs.foldl collStep s).toProvide
      = s.delivered ++ s.armed.toList ++ s.toProvide ++ inputsOf evs ∧
    (evs.foldl collStep s).received = s.received ++ inputsOf evs := by
  induction evs generalizing s with
  | nil =>
    refine ⟨hs, hq, ?_, ?_⟩ <;> simp [inputsOf]
  | cons e t ih =>
    obtain ⟨h1, h2, h3, h4⟩ :=
      collStep_inv s e (h e (List.mem_cons_self _ _)) hs hq
    obtain ⟨i1, i2, i3, i4⟩ :=
      ih (collStep s e) (fun x hx => h x (List.mem_cons_of_mem _ hx)) h1 h2
    rw [List.foldl_cons]
    refine ⟨i1, i2, ?_, ?_⟩
    · rw [i3, h3, inputsOf_cons]
      simp [List.append_assoc]
    · rw [i4, h4, inputsOf_cons]
      simp [List.append_assoc]

/-- Enough consumer take-offs empty the collector and deliver the armed key
followed by the whole pending queue, touching nothing else. -/
lemma drainFuel_spec (n : Nat) (s : CollState) (hn : collBacklog s ≤ n) :
    (drainFuel n s).received = s.received ∧
    (drainFuel n s).status = s.status ∧
    (drainFuel n s).armed = none ∧
    ((s.armed = none → s.toProvide = []) →
      (drainFuel n s).delivered = s.delivered ++ s.armed.toList ++ s.toProvide) := by
  induction n generalizing s with
  | zero =>
    rcases s with ⟨a, tp, st, rc, dl⟩
    cases a with
    | none =>
      refine ⟨rfl, rfl, rfl, ?_⟩
      intro hq
      have htp := hq rfl
      dsimp only at htp
      subst htp
      simp [drainFuel]
    | some k =>
      exfalso
      simp [collBacklog] at hn
  | succ m ih =>
    rcases s with ⟨a, tp, st, rc, dl⟩
    cases a with
    | none =>
      refine ⟨rfl, rfl, rfl, ?_⟩
      intro hq
      have htp := hq rfl
      dsimp only at htp
      subst htp
      simp [drainFuel]
    | some k =>
      have hstep : drainFuel (m + 1) ⟨some k, tp, st, rc, dl⟩
          = drainFuel m (sendHead ⟨some k, tp, st, rc, dl⟩) := rfl
      cases tp with
      | nil =>
        have hsh : sendHead ⟨some k, [], st, rc, dl⟩ = ⟨none, [], st, rc, dl ++ [k]⟩ := rfl
        obtain ⟨j1, j2, j3, j4⟩ := ih ⟨none, [], st, rc, dl ++ [k]⟩ (by simp [collBacklog])
        rw [hstep, hsh]
        refine ⟨j1, j2, j3, ?_⟩
        intro _
        rw [j4 (fun _ => rfl)]
        simp
      | cons t0 ts =>
        have hsh : sendHead ⟨some k, t0 :: ts, st, rc, dl⟩
            = ⟨some t0, ts, st, rc, dl ++ [k]⟩ := rfl
        have hm : collBacklog (⟨some t0, ts, st, rc, dl ++ [k]⟩ : CollState) ≤ m := by
          simp [collBacklog] at hn ⊢
          omega
        obtain ⟨j1, j2, j3, j4⟩ := ih ⟨some t0, ts, st, rc, dl ++ [k]⟩ hm
        rw [hstep, hsh]
        refine ⟨j1, j2, j3, ?_⟩
        intro _
        rw [j4 (fun hh => by simp at hh)]
        simp

/-- C3: ProvideQueueBridge order and exactly-once delivery.  For any
interleaving of producer arrivals and consumer take-offs (input not closed,
context not canceled), once a consumer drains the output, the delivered
sequence is exactly the received input sequence, in order; with pairwise
distinct inputs each is delivered exactly once; and the collector is still
running. -/
theorem provideCollector_order (evs : List CollEvent)
    (hok : ∀ e ∈ evs, isProdCons e = true)
    (hnd : (inputsOf evs).Nodup) :
    (drain (collRun evs)).delivered = inputsOf evs ∧
    (∀ c ∈ inputsOf evs, ((drain (collRun evs)).delivered).count c = 1) ∧
    (drain (collRun evs)).received = inputsOf evs ∧
    (drain (collRun evs)).status = CollStatus.running := by
  obtain ⟨h1, h2, h3, h4⟩ := coll_foldl_inv evs collInit hok rfl (fun _ => rfl)
  obtain ⟨d1, d2, d3, d4⟩ := drainFuel_spec (collBacklog (collRun evs)) (collRun evs) le_rfl
  have hrun : collRun evs = evs.foldl collStep collInit := rfl
  have hdel : (drain (collRun evs)).delivered = inputsOf evs := by
    show (drainFuel (collBacklog (collRun evs)) (collRun evs)).delivered = inputsOf evs
    rw [d4 h2, hrun, h3]
    simp [collInit]
  refine ⟨hdel, ?_, ?_, ?_⟩
  · intro c hc
    rw [hdel]
    exact List.count_eq_one_of_mem hnd hc
  · rw [show (drain (collRun evs)).received = (collRun evs).received from d1, hrun, h4]
    simp [collInit]
  · rw [show (drain (collRun evs)).status = (collRun evs).status from d2, hrun, h1]

/-- C2 counterexample: a received ContentID is dropped at input close.  In the
trace where key 5 arrives on the input and the input then closes before any
consumer takes the output, the collector returns (closing the output stream)
with key 5 received but never delivered — refuting the claim that the output
closes only after every received ContentID has been delivered. -/
theorem provideCollector_drop_cex :
    (collRun [CollEvent.recvInput 5, CollEvent.inputClosed]).status = CollStatus.returned ∧
    (collRun [CollEvent.recvInput 5, CollEvent.inputClosed]).received = [5] ∧
    (collRun [CollEvent.recvInput 5, CollEvent.inputClosed]).delivered = [] :=
  ⟨rfl, rfl, rfl⟩

/-- C2 amended: when the input stream closes, the collector returns at once
and the output stream closes with it; the armed candidate and the queued
pending items are discarded, the delivered sequence never grows again, so
items received but not yet delivered at input close are dropped rather than
delivered. -/
theorem provideCollector_close_discards (evs rest : List CollEvent)
    (hok : ∀ e ∈ evs, isProdCons e = true) :
    (collStep (collRun evs) .inputClosed).status = CollStatus.returned ∧
    (collStep (collRun evs) .inputClosed).armed = none ∧
    (collStep (collRun evs) .inputClosed).toProvide = [] ∧
    (collStep (collRun evs) .inputClosed).delivered = (collRun evs).delivered ∧
    (rest.foldl collStep (collStep (collRun evs) .inputClosed)).delivered
      = (collRun evs).delivered := by
  obtain ⟨h1, h2, h3, h4⟩ := coll_foldl_inv evs collInit hok rfl (fun _ => rfl)
  have hrun : (collRun evs).status = CollStatus.running := h1
  rcases hs : collRun evs with ⟨a, tp, st, rc, dl⟩
  rw [hs] at hrun
  dsimp only at hrun
  subst hrun
  have hclose : collStep ⟨a, tp, .running, rc, dl⟩ .inputClosed
      = ⟨none, [], .returned, rc, dl⟩ := by
    cases a <;> rfl
  rw [hclose]
  refine ⟨rfl, rfl, rfl, rfl, ?_⟩
  rw [foldl_returned ⟨none, [], .returned, rc, dl⟩ rfl rest]

/-- Witness for C1 at the empty manager state and ContentID 0: the first
request launches a search and a second request while it is in flight changes
nothing, leaving exactly one logged search. -/
theorem providerQueryManager_dedup_witness :
    (0 : Cid) ∈ (processRequest pqmInit ⟨0, false⟩).kset ∧
    processRequest (processRequest pqmInit ⟨0, false⟩) ⟨0, false⟩
      = processRequest pqmInit ⟨0, false⟩ ∧
    (processRequest (processRequest pqmInit ⟨0, false⟩) ⟨0, false⟩).searches.count 0
      = pqmInit.searches.count 0 + 1 :=
  ⟨(providerQueryManager_dedup pqmInit 0 true (by decide)).1,
   (providerQueryManager_dedup pqmInit 0 true (by decide)).2.2.2.1,
   (providerQueryManager_dedup pqmInit 0 true (by decide)).2.2.2.2.1⟩

/-- Witness for C3 on the concrete trace 1, take, 2, 3, take: draining
delivers exactly 1, 2, 3 in order. -/
theorem provideCollector_order_witness :
    (drain (collRun [CollEvent.recvInput 1, CollEvent.sendOutput, CollEvent.recvInput 2,
        CollEvent.recvInput 3, CollEvent.sendOutput])).delivered
      = inputsOf [CollEvent.recvInput 1, CollEvent.sendOutput, CollEvent.recvInput 2,
        CollEvent.recvInput 3, CollEvent.sendOutput] :=
  (provideCollector_order _ (by decide) (by decide)).1

/-- Witness for C7 on the want-list 4, 5, 6 with draw 7: exactly the single
entry 5 (index 7 mod 3 = 1) is submitted. -/
theorem rebroadcastWorker_select_witness :
    broadcastFire [4, 5, 6] 7 = [5] ∧ (broadcastFire [4, 5, 6] 7).length = 1 :=
  ⟨((rebroadcastWorker_select_one [4, 5, 6] 7 (by decide)).2.1).trans (by decide),
   (rebroadcastWorker_select_one [4, 5, 6] 7 (by decide)).2.2.1⟩

/-- Witness for the amended C2 on the trace that receives key 7 and then sees
the input close: the collector returns and a later consumer take-off delivers
nothing further. -/
theorem provideCollector_close_witness :
    (collStep (collRun [CollEvent.recvInput 7]) CollEvent.inputClosed).status
      = CollStatus.returned ∧
    (List.foldl collStep (collStep (collRun [CollEvent.recvInput 7]) CollEvent.inputClosed)
        [CollEvent.sendOutput]).delivered = (collRun [CollEvent.recvInput 7]).delivered :=
  ⟨(provideCollector_close_discards [CollEvent.recvInput 7] [CollEvent.sendOutput]
      (by decide)).1,
   (provideCollector_close_discards [CollEvent.recvInput 7] [CollEvent.sendOutput]
      (by decide)).2.2.2.2⟩

end Bitswap
